import Mathlib

/-!
Verification of the step-event workflow examples of this repository.

The repository ships three example notebooks driving the workflow engine
(`ReflectionWorkflow` with a validation/retry loop, a multi-agent handoff
workflow, and a human-in-the-loop story workflow) together with a
specification of the underlying step-event scheduler.  The step bodies
below are shallow embeddings of the notebook code; the scheduler itself
(its event queue, routing, termination, handoff and store semantics) is
not part of the shipped sources and is modelled from the specification.

External collaborators (the LLM completion call, the schema validator,
the human-input function) are modelled as explicit oracle parameters:
a completion function receives the prompt built by the code and the
index of the call, so that each run of the workflow corresponds to one
choice of oracle.

The file is organised with all definitions first, then all theorems.
-/

/-! ## Definitions: association lists (string-keyed maps) -/

/-!
Verification of the step-event workflow examples of this repository.

The repository ships three example notebooks driving the workflow engine
(`ReflectionWorkflow` with a validation/retry loop, a multi-agent handoff
workflow, and a human-in-the-loop story workflow) together with a
specification of the underlying step-event scheduler.  The step bodies
below are shallow embeddings of the notebook code; the scheduler itself
(its event queue, routing, termination, handoff and store semantics) is
not part of the shipped sources and is modelled from the specification.

External collaborators (the LLM completion call, the schema validator,
the human-input function) are modelled as explicit oracle parameters:
a completion function receives the prompt built by the code and the
index of the call, so that each run of the workflow corresponds to one
choice of oracle.
-/
/-! ## Association lists (string-keyed maps used by the state stores) -/
/-- Lookup in a string-keyed association list. -/
def aget {α : Type} : List (String × α) → String → Option α
  | [], _ => none
  | (k', v) :: rest, k => if k = k' then some v else aget rest k

/-- Update (or insert) in a string-keyed association list. -/
def aset {α : Type} : List (String × α) → String → α → List (String × α)
  | [], k, v => [(k, v)]
  | (k', v') :: rest, k, v =>
      if k = k' then (k, v) :: rest else (k', v') :: aset rest k v

/-! ## Definitions: the reflection workflow
(`docs/docs/examples/workflow/reflection.ipynb`) -/

namespace Reflection

/-- Events of the reflection workflow: the reserved Start/Stop kinds plus
the user-defined `ExtractionDone` and `ValidationErrorEvent`. -/
inductive REv where
  | start (passage : Option String)
  | extractionDone (output : String) (passage : String)
  | validationError (error : String) (wrong_output : String) (passage : String)
  | stop (result : String)
deriving DecidableEq, Repr

/-- Inputs accepted by the `extract` step (its declared union
`StartEvent | ValidationErrorEvent`). -/
inductive ExtractIn where
  | start (passage : Option String)
  | validationError (error : String) (wrong_output : String) (passage : String)
deriving DecidableEq, Repr

/-- Workflow configuration and external collaborators:
`max_retries` is the class attribute of `ReflectionWorkflow`;
`schema_json` stands for `CarCollection.schema_json()`;
`acomplete p i` is the response of the external LLM to the `i`-th
completion call, issued with prompt `p`;
`parses s` tells whether `CarCollection.model_validate_json s` succeeds;
`errOf s` is `str(e)` for the exception raised when `s` fails to parse. -/
structure RCfg where
  max_retries : Nat
  schema_json : String
  acomplete : String → Nat → String
  parses : String → Bool
  errOf : String → String

/-- Run state: the shared store's key `retries` (absent modelled as the
default `0`), and the number of completion calls made so far. -/
structure RState where
  retries : Nat
  calls : Nat
deriving DecidableEq, Repr

/-- The `EXTRACTION_PROMPT` template, with `passage` and `schema`
substituted. -/
def EXTRACTION_PROMPT (passage schema : String) : String :=
  "\nContext information is below:\n---------------------\n" ++ passage ++
  "\n---------------------\n\nGiven the context information and not prior knowledge, create a JSON object from the information in the context.\nThe JSON object must follow the JSON schema:\n" ++
  schema ++ "\n\n"

/-- The `REFLECTION_PROMPT` template, with `wrong_answer` and `error`
substituted. -/
def REFLECTION_PROMPT (wrong_answer error : String) : String :=
  "\nYou already created this output previously:\n---------------------\n" ++ wrong_answer ++
  "\n---------------------\n\nThis caused the JSON decode error: " ++ error ++
  "\n\nTry again, the response must contain only valid JSON code. Do not add any sentence before or after the JSON object.\nDo not repeat the schema.\n"

/-- The `extract` step of `ReflectionWorkflow`:
reads the retry counter, stops with the sentinel once the ceiling is
reached, otherwise increments the counter, rejects an absent or empty
passage, and otherwise issues one completion call (with the reflection
prompt appended when retrying) and emits `ExtractionDone`. -/
def extract (cfg : RCfg) (st : RState) (ev : ExtractIn) : RState × REv :=
  let current_retries := st.retries
  if cfg.max_retries ≤ current_retries then
    (st, .stop "Max retries reached")
  else
    let st1 : RState := { st with retries := current_retries + 1 }
    match ev with
    | .start p =>
        let passage := p.getD ""
        if passage = "" then
          (st1, .stop "Please provide some text in input")
        else
          let prompt := EXTRACTION_PROMPT passage cfg.schema_json
          let output := cfg.acomplete prompt st1.calls
          ({ st1 with calls := st1.calls + 1 }, .extractionDone output passage)
    | .validationError error wrong_output passage =>
        let reflection_prompt := REFLECTION_PROMPT wrong_output error
        let prompt := EXTRACTION_PROMPT passage cfg.schema_json ++ reflection_prompt
        let output := cfg.acomplete prompt st1.calls
        ({ st1 with calls := st1.calls + 1 }, .extractionDone output passage)

/-- The `validate` step of `ReflectionWorkflow`: emit `StopEvent` with the
output as result when the output parses against `CarCollection`, else emit
`ValidationErrorEvent` carrying the error text, the wrong output and the
passage. -/
def validate (cfg : RCfg) (output passage : String) : REv :=
  if cfg.parses output then .stop output
  else .validationError (cfg.errOf output) output passage

/-- Modelled from the spec: the scheduler's execution loop specialised to
the reflection workflow (routing `StartEvent` and `ValidationErrorEvent`
to `extract`, `ExtractionDone` to `validate`, terminating on the Stop
event); the fuel argument stands for the wall-clock timeout, `none`
meaning the timeout fired before termination. -/
def runReflection (cfg : RCfg) : Nat → RState → REv → Option (RState × String)
  | 0, _, _ => none
  | fuel + 1, st, ev =>
      match ev with
      | .stop r => some (st, r)
      | .start p =>
          let r := extract cfg st (.start p)
          runReflection cfg fuel r.1 r.2
      | .validationError e w pa =>
          let r := extract cfg st (.validationError e w pa)
          runReflection cfg fuel r.1 r.2
      | .extractionDone out pa =>
          runReflection cfg fuel st (validate cfg out pa)

/-- The prompt issued by the `i`-th extraction attempt of a run on the
given passage (attempt `0` uses the plain extraction prompt; attempt
`i + 1` appends the reflection prompt built from attempt `i`'s output). -/
def promptAt (cfg : RCfg) (passage : String) : Nat → String
  | 0 => EXTRACTION_PROMPT passage cfg.schema_json
  | i + 1 =>
      let prev := cfg.acomplete (promptAt cfg passage i) i
      EXTRACTION_PROMPT passage cfg.schema_json ++
        REFLECTION_PROMPT prev (cfg.errOf prev)

/-- The output produced by the `i`-th extraction attempt of a run on the
given passage. -/
def outAt (cfg : RCfg) (passage : String) (i : Nat) : String :=
  cfg.acomplete (promptAt cfg passage i) i

/-- The event that triggers the `i`-th extraction attempt: the Start event
for `i = 0`, the validation-error event built from attempt `i - 1`
afterwards. -/
def trigger (cfg : RCfg) (passage : String) : Nat → REv
  | 0 => .start (some passage)
  | i + 1 => .validationError (cfg.errOf (outAt cfg passage i)) (outAt cfg passage i) passage

/-- Demonstration configuration: the oracle answers "bad" to the first
completion call and "good" afterwards, and only "good" validates. -/
def demoCfg : RCfg where
  max_retries := 3
  schema_json := "S"
  acomplete := fun _ i => if i = 0 then "bad" else "good"
  parses := fun s => s == "good"
  errOf := fun _ => "E"

/-- Whether an event is a Start event carrying a missing or empty passage
(the only event on which `extract` proceeds without issuing a completion
call). -/
def isEmptyStart : REv → Bool
  | .start p => p.getD "" == ""
  | _ => false

end Reflection

/-! ## Definitions: the step-event scheduler

The engine the notebooks import is not part of the shipped sources, so
the scheduler below — queue, routing, handoff allow-lists, shared state
store and termination — is modelled from the specification (sections 3,
4.1, 5 and 6). -/

namespace WF

/-- Modelled from the spec: the values held by the shared state store
(arbitrary values; strings and string-keyed mappings suffice for the
examples). -/
inductive Val where
  | str (s : String)
  | vmap (entries : List (String × Val))

/-- Modelled from the spec: an event is a tagged record with a kind and a
payload of named fields.  The reserved kinds are "start" and "stop"; a
handoff event has kind "handoff" and a "target" payload field. -/
structure GEvent where
  kind : String
  payload : List (String × Val)

/-- Modelled from the spec: a terminal outcome of a run — a Stop result,
a timeout, a cancellation, or a tagged failure (configuration, ambiguous
route or illegal handoff errors). -/
inductive Outcome where
  | stop (r : Val)
  | timeout
  | cancelled
  | failed (err : String)

/-- Modelled from the spec: a registered step — its name, the event kinds
it accepts, its handoff allow-list, and its body mapping the shared store
and the incoming event to the new store and the emitted events. -/
structure WStep where
  name : String
  accepts : List String
  can_handoff_to : List String
  body : List (String × Val) → GEvent → List (String × Val) × List GEvent

/-- Modelled from the spec: the state of one run — the pending-event
queue (each event carrying its arrival stamp), the next arrival stamp,
the shared store, the name of the last step invoked (against whose
allow-list handoffs are checked), the trace of step invocations (step
name, stamp and event consumed), the terminal result slot, and the
iteration counter at which cancellation is polled. -/
structure RunS where
  queue : List (Nat × GEvent)
  nextStamp : Nat
  store : List (String × Val)
  cur : String
  trace : List (String × Nat × GEvent)
  result : Option Outcome
  iter : Nat

/-- Stamp a list of emitted events with consecutive arrival stamps. -/
def stampFrom : Nat → List GEvent → List (Nat × GEvent)
  | _, [] => []
  | n, e :: es => (n, e) :: stampFrom (n + 1) es

/-- The result value carried by a Stop event. -/
def stopResult (e : GEvent) : Val := (aget e.payload "result").getD (.str "")

/-- The first Stop event among a step's returned events, if any. -/
def firstStopEv (l : List GEvent) : Option GEvent := l.find? (fun e => e.kind == "stop")

/-- The target step named by a handoff event's payload. -/
def handoffTarget (e : GEvent) : Option String :=
  match aget e.payload "target" with
  | some (.str t) => some t
  | _ => none

/-- The handoff allow-list declared by the step of the given name. -/
def allowOf (steps : List WStep) (name : String) : List String :=
  ((steps.find? (fun s => s.name == name)).map (fun s => s.can_handoff_to)).getD []

/-- The registered step of the given name, if any. -/
def findStep (steps : List WStep) (t : String) : Option WStep :=
  steps.find? (fun s => s.name == t)

/-- The registered steps accepting the given event kind. -/
def acceptors (steps : List WStep) (kind : String) : List WStep :=
  steps.filter (fun s => s.accepts.contains kind)

/-- Modelled from the spec: routing — a handoff event is routed
dynamically to its named target provided the target is in the current
step's allow-list (failing with `IllegalHandoffError` otherwise); any
other event goes to the unique step accepting its kind (failing with
`AmbiguousRouteError` on several, `ConfigurationError` on none). -/
def routeFor (steps : List WStep) (cur : String) (e : GEvent) : Except String WStep :=
  if e.kind == "handoff" then
    match handoffTarget e with
    | none => .error "ConfigurationError"
    | some t =>
        if (allowOf steps cur).contains t then
          match findStep steps t with
          | some stp => .ok stp
          | none => .error "ConfigurationError"
        else .error "IllegalHandoffError"
  else
    match acceptors steps e.kind with
    | [stp] => .ok stp
    | [] => .error "ConfigurationError"
    | _ => .error "AmbiguousRouteError"

/-- Modelled from the spec: one invocation — run the routed step's body,
append its emitted events at the tail of the queue in the order returned
(with consecutive arrival stamps), record the invocation in the trace,
and, if a Stop event is among the returned events, record its result and
mark the run terminal. -/
def invokeStep (s : RunS) (st : Nat) (e : GEvent) (rest : List (Nat × GEvent))
    (stp : WStep) : RunS :=
  let r := stp.body s.store e
  let s' : RunS :=
    { queue := rest ++ stampFrom s.nextStamp r.2
      nextStamp := s.nextStamp + r.2.length
      store := r.1
      cur := stp.name
      trace := s.trace ++ [(stp.name, st, e)]
      result := none
      iter := s.iter + 1 }
  match firstStopEv r.2 with
  | some e' => { s' with result := some (.stop (stopResult e')) }
  | none => s'

/-- Modelled from the spec: one iteration of the execution loop — a
terminal run is left untouched; otherwise cancellation is polled, then
one event is dequeued in FIFO order and dispatched (an empty queue
times out). -/
def schedStep (steps : List WStep) (cancel : Nat → Bool) (s : RunS) : RunS :=
  match s.result with
  | some _ => s
  | none =>
      if cancel s.iter then { s with result := some .cancelled }
      else
        match s.queue with
        | [] => { s with result := some .timeout }
        | (st, e) :: rest =>
            match routeFor steps s.cur e with
            | .error err => { s with result := some (.failed err) }
            | .ok stp => invokeStep s st e rest stp

/-- Modelled from the spec: the execution loop, with fuel standing for
the wall-clock timeout (fuel exhaustion fails the run with a timeout). -/
def sched (steps : List WStep) (cancel : Nat → Bool) : Nat → RunS → RunS
  | 0, s =>
      match s.result with
      | some _ => s
      | none => { s with result := some .timeout }
  | n + 1, s => sched steps cancel n (schedStep steps cancel s)

/-- The constantly-false cancellation signal (the caller never cancels). -/
def noCancel : Nat → Bool := fun _ => false

/-- A demonstration step that immediately emits a Stop event. -/
def stopperStep : WStep where
  name := "stopper"
  accepts := ["start"]
  can_handoff_to := []
  body := fun store _ => (store, [⟨"stop", [("result", .str "done")]⟩])

/-- A demonstration run: one Start event pending, nothing terminal yet. -/
def demoRun : RunS where
  queue := [(0, ⟨"start", []⟩)]
  nextStamp := 1
  store := []
  cur := "stopper"
  trace := []
  result := none
  iter := 0

/-- A demonstration step body that swallows its event. -/
def idleBody : List (String × Val) → GEvent → List (String × Val) × List GEvent :=
  fun store _ => (store, [])

/-- Demonstration agents: `A` may hand off to `B` only. -/
def agentA : WStep := ⟨"A", ["start"], ["B"], idleBody⟩

/-- Demonstration agent `B`. -/
def agentB : WStep := ⟨"B", ["go"], [], idleBody⟩

/-- A handoff event naming the given target. -/
def handoffEvTo (t : String) : GEvent := ⟨"handoff", [("target", .str t)]⟩

/-- A demonstration run whose pending event is a handoff from `A` to `t`. -/
def handoffRun (t : String) : RunS where
  queue := [(5, handoffEvTo t)]
  nextStamp := 6
  store := []
  cur := "A"
  trace := []
  result := none
  iter := 0

/-- The arrival stamps of the pending-event queue. -/
def qstamps (s : RunS) : List Nat := s.queue.map Prod.fst

/-- The arrival stamps of the events consumed so far, in consumption
order. -/
def tstamps (s : RunS) : List Nat := s.trace.map (fun x => x.2.1)

/-- The FIFO invariant: queue stamps strictly increase and are below the
next stamp to be issued; consumed stamps strictly increase, precede every
queued stamp, and are below the next stamp. -/
def StampInv (s : RunS) : Prop :=
  List.Pairwise (· < ·) (qstamps s) ∧
  (∀ a ∈ qstamps s, a < s.nextStamp) ∧
  List.Pairwise (· < ·) (tstamps s) ∧
  (∀ a ∈ tstamps s, ∀ b ∈ qstamps s, a < b) ∧
  (∀ a ∈ tstamps s, a < s.nextStamp)

/-! ### Shared-state store operations and the `record_notes` tool -/
/-- Modelled from the spec: shared-state read with default. -/
def wget (s : List (String × Val)) (k : String) (d : Val) : Val := (aget s k).getD d

/-- Modelled from the spec: scoped read-modify-write (`edit_state`):
enter snapshots the value under the key, the editing body runs (and may
raise, modelled by the optional exception it returns alongside the value
it had produced by the time of the raise), and the value is committed on
every exit path, the exception being re-thrown to the caller. -/
def scoped_edit (s : List (String × Val)) (k : String)
    (body : Val → Val × Option String) : List (String × Val) × Option String :=
  let snapshot := wget s k (.vmap [])
  let r := body snapshot
  (aset s k r.1, r.2)

/-- The editing body of the `record_notes` tool of the multi-agent
notebook: ensure the "research_notes" sub-mapping exists, then store the
notes under the title. -/
def record_notes_edit (notes_title notes : String) (v : Val) : Val :=
  match v with
  | .vmap m =>
      let rn :=
        match aget m "research_notes" with
        | some (.vmap r) => r
        | _ => []
      .vmap (aset m "research_notes" (.vmap (aset rn notes_title (.str notes))))
  | .str s => .str s

/-- Read back the notes recorded under a title inside the state value. -/
def notesUnder (v : Val) (notes_title : String) : Option Val :=
  match v with
  | .vmap m =>
      match aget m "research_notes" with
      | some (.vmap rn) => aget rn notes_title
      | _ => none
  | _ => none

/-- A step performing the `record_notes` scoped edit and emitting a
"noted" event. -/
def noteStep (notes_title notes : String) : WStep where
  name := "note_step"
  accepts := ["start"]
  can_handoff_to := []
  body := fun store _ =>
    let r := scoped_edit store "state" (fun v => (record_notes_edit notes_title notes v, none))
    (r.1, [⟨"noted", []⟩])

/-- A step reading the shared state under "state" and stopping with it as
the run's result. -/
def readStateStep : WStep where
  name := "read_step"
  accepts := ["noted"]
  can_handoff_to := []
  body := fun store _ => (store, [⟨"stop", [("result", wget store "state" (.vmap []))]⟩])

/-- The initial run state of the two-step demonstration system. -/
def editRun (s0 : List (String × Val)) : RunS where
  queue := [(0, ⟨"start", []⟩)]
  nextStamp := 1
  store := s0
  cur := "note_step"
  trace := []
  result := none
  iter := 0

end WF

/-! ## Definitions: the story workflow
(`docs/docs/examples/workflow/human_in_the_loop_story_crafting.ipynb`)

`create_segment` and `prompt_human` are translated from the notebook.
Python objects are aliased references, so the model is explicit about
object identity: `Block` objects and list objects live on heaps keyed by
identity, and the context store maps keys to list-object identities.
`prompt_human` mutates the consumed event's `Block` in place and writes
the list reference under the key "block" (not "blocks").  A second,
value-semantics translation of `prompt_human` (`prompt_humanVal`), in
which the store holds `Block` lists by value, isolates what the store
writes alone propagate. -/

namespace Story

/-- The `Segment` data model (plot and candidate actions). -/
structure Segment where
  plot : String
  actions : List String
deriving DecidableEq, Repr

/-- The `Block` data model: identity, segment, and the human's choice
(`None` until chosen). The constant `block_template` field is elided;
`blockToString` is its only use. -/
structure Block where
  id_ : String
  segment : Segment
  choice : Option String
deriving DecidableEq, Repr

/-- The default used when dereferencing a dangling identity (never hit in
well-formed worlds). -/
def defaultBlock : Block := ⟨"", ⟨"", []⟩, none⟩

/-- `str(block)`: the `BLOCK_TEMPLATE` with plot, actions and choice
substituted (`choice or ""`). -/
def blockToString (b : Block) : String :=
  "\nBLOCK\n===\nPLOT: " ++ b.segment.plot ++ "\nACTIONS: " ++
    String.intercalate ", " b.segment.actions ++ "\nCHOICE: " ++ b.choice.getD "" ++ "\n"

/-- Events of the story workflow; `newBlock` carries the identity of the
`Block` object in its payload, `stop` the identity of the list object. -/
inductive StoryEv where
  | start
  | newBlock (block : String)
  | humanChoice (block_id : String)
  | stop (result : String)
deriving DecidableEq, Repr

/-- The reference-semantics world: `Block` objects and list objects by
identity, the context store mapping keys to list-object identities, the
number of LLM calls made, and a counter for fresh list identities. -/
structure RefWorld where
  blockHeap : List (String × Block)
  listHeap : List (String × List String)
  store : List (String × String)
  calls : Nat
  nextList : Nat
deriving DecidableEq, Repr

/-- The `Block` values obtained by reading key "blocks" of the store and
dereferencing the list object and its entries — exactly what the next
`create_segment` invocation reads. -/
def observedBlocks (w : RefWorld) : List Block :=
  match aget w.store "blocks" with
  | some lid =>
      ((aget w.listHeap lid).getD []).map
        (fun i => (aget w.blockHeap i).getD defaultBlock)
  | none => []

/-- The `create_segment` step (reference semantics): read the list under
"blocks" (a fresh empty list object if absent), join the dereferenced
blocks into the running story, and either append a new block (mutating
the list object in place) and re-store the same list reference under
"blocks", emitting `NewBlockEvent` — or, once `max_steps` is reached,
append the final block and stop with the list reference as result
(no store write on that path).  The two structured-prediction calls are
the oracles `llmSeg` (segment template) and `llmFinal` (final-segment
template), fed the running story and the call index; `idGen` models the
uuid factory of `Block.id_`. -/
def create_segment (max_steps : Nat) (llmSeg llmFinal : String → Nat → Segment)
    (idGen : Nat → String) (w : RefWorld) : RefWorld × StoryEv :=
  let fresh := "list" ++ toString w.nextList
  let acc :=
    match aget w.store "blocks" with
    | some lid => (lid, w.listHeap, w.nextList)
    | none => (fresh, aset w.listHeap fresh [], w.nextList + 1)
  let lid := acc.1
  let lh := acc.2.1
  let nl := acc.2.2
  let ids := (aget lh lid).getD []
  let running_story :=
    String.intercalate "\n"
      (ids.map (fun i => blockToString ((aget w.blockHeap i).getD defaultBlock)))
  if ids.length < max_steps then
    let new_segment := llmSeg running_story w.calls
    let bid := idGen w.calls
    let new_block : Block := { id_ := bid, segment := new_segment, choice := none }
    let bh2 := aset w.blockHeap bid new_block
    let lh2 := aset lh lid (ids ++ [bid])
    let store2 := aset w.store "blocks" lid
    ({ blockHeap := bh2, listHeap := lh2, store := store2, calls := w.calls + 1,
       nextList := nl }, .newBlock bid)
  else
    let final_segment := llmFinal running_story w.calls
    let bid := idGen w.calls
    let final_block : Block := { id_ := bid, segment := final_segment, choice := none }
    let bh2 := aset w.blockHeap bid final_block
    let lh2 := aset lh lid (ids ++ [bid])
    ({ blockHeap := bh2, listHeap := lh2, store := w.store, calls := w.calls + 1,
       nextList := nl }, .stop lid)

/-- The prompt `prompt_human` builds for the `input()` call. -/
def humanPromptFor (b : Block) : String :=
  "\n===\n" ++ b.segment.plot ++ "\n\nChoose your adventure:\n\n" ++
    String.intercalate "\n" b.segment.actions ++ "\n\n"

/-- The `prompt_human` step (reference semantics): dereference the
consumed event's block, obtain the human input (`humanIn` models the
external `input()` collaborator), set the block's choice in place, write
the block's identity over the last slot of the list object read under
"blocks", and store that list reference under the key "block" — note the
key: "block", not "blocks". -/
def prompt_human (humanIn : String → String) (w : RefWorld) (bid : String) :
    RefWorld × StoryEv :=
  let block := (aget w.blockHeap bid).getD defaultBlock
  let human_input := humanIn (humanPromptFor block)
  let lid := (aget w.store "blocks").getD ""
  let ids := (aget w.listHeap lid).getD []
  let bh2 := aset w.blockHeap bid { block with choice := some human_input }
  let ids2 := ids.set (ids.length - 1) bid
  let lh2 := aset w.listHeap lid ids2
  let store2 := aset w.store "block" lid
  ({ w with blockHeap := bh2, listHeap := lh2, store := store2 }, .humanChoice bid)

/-- The `prompt_human` step under value semantics of the store: the event
payload and the stored lists are `Block` values, so updates are copies
and only explicit store writes can propagate. -/
def prompt_humanVal (humanIn : String → String) (evBlock : Block)
    (store : List (String × List Block)) : List (String × List Block) × StoryEv :=
  let block := evBlock
  let human_input := humanIn (humanPromptFor block)
  let blocks := (aget store "blocks").getD []
  let block2 := { block with choice := some human_input }
  let blocks2 := blocks.set (blocks.length - 1) block2
  (aset store "block" blocks2, .humanChoice evBlock.id_)

/-- The observable content of a consumed `NewBlockEvent` payload: the
`Block` record its reference points at. -/
def eventBlockView (w : RefWorld) (bid : String) : Block :=
  (aget w.blockHeap bid).getD defaultBlock

/-- Oracle producing a fixed segment (demonstration). -/
def demoLlm : String → Nat → Segment := fun _ _ => ⟨"plotA", ["left", "right"]⟩

/-- Identity generator for demonstration blocks. -/
def demoIdGen : Nat → String := fun n => "b" ++ toString n

/-- A human who always answers "left". -/
def demoHuman : String → String := fun _ => "left"

/-- The empty initial world. -/
def demoWorld0 : RefWorld := ⟨[], [], [], 0, 0⟩

/-- The world after the first `create_segment` invocation. -/
def demoWorld1 : RefWorld := (create_segment 3 demoLlm demoLlm demoIdGen demoWorld0).1

/-- The world after `prompt_human` consumed the emitted `NewBlockEvent`. -/
def demoWorld2 : RefWorld := (prompt_human demoHuman demoWorld1 "b0").1

end Story

/-! ## Theorems: association lists -/

theorem aget_aset_self {α : Type} (l : List (String × α)) (k : String) (v : α) :
    aget (aset l k v) k = some v := by
  induction l with
  | nil => simp [aget, aset]
  | cons hd tl ih =>
      by_cases h : k = hd.1
      · simp [aget, aset, h]
      · simp [aget, aset, h, ih]

theorem aget_aset_ne {α : Type} (l : List (String × α)) (k k' : String) (v : α)
    (h : k' ≠ k) : aget (aset l k v) k' = aget l k' := by
  induction l with
  | nil => simp [aget, aset, h]
  | cons hd tl ih =>
      by_cases hk : k = hd.1
      · subst hk
        simp [aget, aset, h]
      · by_cases hk' : k' = hd.1
        · simp [aget, aset, hk, hk']
        · simp [aget, aset, hk, hk', ih]

/-! ## Theorems: the reflection workflow -/

namespace Reflection

theorem extract_ceiling (cfg : RCfg) (st : RState) (ev : ExtractIn)
    (h : cfg.max_retries ≤ st.retries) :
    extract cfg st ev = (st, .stop "Max retries reached") := by
  simp [extract, h]

theorem extract_start (cfg : RCfg) (passage : String) (hp : passage ≠ "")
    (hz : 0 < cfg.max_retries) :
    extract cfg ⟨0, 0⟩ (.start (some passage)) =
      (⟨1, 1⟩, .extractionDone (outAt cfg passage 0) passage) := by
  have hnot : ¬ cfg.max_retries ≤ 0 := Nat.not_le.mpr hz
  simp [extract, hnot, hp, outAt, promptAt]

theorem extract_retry (cfg : RCfg) (passage : String) (n : Nat)
    (hn : n + 1 < cfg.max_retries) :
    extract cfg ⟨n + 1, n + 1⟩
        (.validationError (cfg.errOf (outAt cfg passage n)) (outAt cfg passage n) passage) =
      (⟨n + 2, n + 2⟩, .extractionDone (outAt cfg passage (n + 1)) passage) := by
  have hnot : ¬ cfg.max_retries ≤ n + 1 := Nat.not_le.mpr hn
  simp [extract, hnot, outAt, promptAt]

theorem run_round (cfg : RCfg) (passage : String) (hp : passage ≠ "") (i : Nat)
    (hi : i < cfg.max_retries) (fuel : Nat) :
    runReflection cfg (fuel + 3) ⟨i, i⟩ (trigger cfg passage i) =
      if cfg.parses (outAt cfg passage i) = true then
        some (⟨i + 1, i + 1⟩, outAt cfg passage i)
      else runReflection cfg (fuel + 1) ⟨i + 1, i + 1⟩ (trigger cfg passage (i + 1)) := by
  have step1 :
      runReflection cfg (fuel + 3) ⟨i, i⟩ (trigger cfg passage i) =
        runReflection cfg (fuel + 2) ⟨i + 1, i + 1⟩
          (.extractionDone (outAt cfg passage i) passage) := by
    cases i with
    | zero =>
        simp only [trigger, runReflection]
        rw [extract_start cfg passage hp hi]
    | succ n =>
        simp only [trigger, runReflection]
        rw [extract_retry cfg passage n hi]
  rw [step1]
  simp only [runReflection, validate]
  by_cases hpar : cfg.parses (outAt cfg passage i) = true
  · rw [if_pos hpar, if_pos hpar]
  · rw [if_neg hpar, if_neg hpar]
    rfl

theorem run_stop_now (cfg : RCfg) (passage : String) (st : RState) (j fuel : Nat)
    (h : cfg.max_retries ≤ st.retries) :
    runReflection cfg (fuel + 2) st (trigger cfg passage j) =
      some (st, "Max retries reached") := by
  cases j with
  | zero => simp [trigger, runReflection, extract, h]
  | succ n => simp [trigger, runReflection, extract, h]

theorem run_to_success (cfg : RCfg) (passage : String) (hp : passage ≠ "") (k : Nat)
    (hk : k < cfg.max_retries)
    (h1 : ∀ j, j < k → cfg.parses (outAt cfg passage j) = false)
    (h2 : cfg.parses (outAt cfg passage k) = true) :
    ∀ d i, i + d = k →
      runReflection cfg (2 * d + 3) ⟨i, i⟩ (trigger cfg passage i) =
        some (⟨k + 1, k + 1⟩, outAt cfg passage k) := by
  intro d
  induction d with
  | zero =>
      intro i h
      have hik : i = k := by omega
      rw [hik]
      have := run_round cfg passage hp k hk 0
      simpa [h2] using this
  | succ n ih =>
      intro i h
      have hi : i < cfg.max_retries := by omega
      have hfail : cfg.parses (outAt cfg passage i) = false := h1 i (by omega)
      have heq : 2 * (n + 1) + 3 = (2 * n + 2) + 3 := by ring
      rw [heq, run_round cfg passage hp i hi (2 * n + 2)]
      rw [hfail]
      simp only [Bool.false_eq_true, if_false]
      have heq2 : (2 * n + 2) + 1 = 2 * n + 3 := by ring
      rw [heq2]
      exact ih (i + 1) (by omega)

theorem run_to_ceiling (cfg : RCfg) (passage : String) (hp : passage ≠ "")
    (h1 : ∀ j, j < cfg.max_retries → cfg.parses (outAt cfg passage j) = false) :
    ∀ d i, i + d = cfg.max_retries →
      runReflection cfg (2 * d + 2) ⟨i, i⟩ (trigger cfg passage i) =
        some (⟨cfg.max_retries, cfg.max_retries⟩, "Max retries reached") := by
  intro d
  induction d with
  | zero =>
      intro i h
      have hik : i = cfg.max_retries := by omega
      subst hik
      exact run_stop_now cfg passage ⟨cfg.max_retries, cfg.max_retries⟩ cfg.max_retries 0
        (le_refl _)
  | succ n ih =>
      intro i h
      have hi : i < cfg.max_retries := by omega
      have hfail : cfg.parses (outAt cfg passage i) = false := h1 i hi
      have heq : 2 * (n + 1) + 2 = (2 * n + 1) + 3 := by ring
      rw [heq, run_round cfg passage hp i hi (2 * n + 1)]
      rw [hfail]
      simp only [Bool.false_eq_true, if_false]
      have heq2 : (2 * n + 1) + 1 = 2 * n + 2 := by ring
      rw [heq2]
      exact ih (i + 1) (by omega)

theorem runReflection_mono (cfg : RCfg) :
    ∀ fuel fuel' (st : RState) (ev : REv) (r : RState × String), fuel ≤ fuel' →
      runReflection cfg fuel st ev = some r → runReflection cfg fuel' st ev = some r := by
  intro fuel
  induction fuel with
  | zero =>
      intro fuel' st ev r _ h
      simp [runReflection] at h
  | succ n ih =>
      intro fuel' st ev r hle h
      obtain ⟨f', rfl⟩ : ∃ f', fuel' = f' + 1 := ⟨fuel' - 1, by omega⟩
      have hnf : n ≤ f' := by omega
      cases ev with
      | stop s => simpa [runReflection] using h
      | start p =>
          simp only [runReflection] at h ⊢
          exact ih f' _ _ _ hnf h
      | validationError e w pa =>
          simp only [runReflection] at h ⊢
          exact ih f' _ _ _ hnf h
      | extractionDone out pa =>
          simp only [runReflection] at h ⊢
          exact ih f' _ _ _ hnf h

/-- Claim C1: for the reflection workflow with retry ceiling `max_retries = m`,
if validation rejects the first `k` extraction outputs and accepts the
`k + 1`-st, the run terminates with the validated output when `k < m`, and
with the sentinel result "Max retries reached" when `k ≥ m`. -/
theorem c1_retry_loop (cfg : RCfg) (passage : String) (k : Nat)
    (hp : passage ≠ "")
    (h1 : ∀ j, j < k → cfg.parses (outAt cfg passage j) = false)
    (h2 : cfg.parses (outAt cfg passage k) = true) :
    runReflection cfg (2 * k + 2 * cfg.max_retries + 3) ⟨0, 0⟩ (.start (some passage)) =
      if k < cfg.max_retries then some (⟨k + 1, k + 1⟩, outAt cfg passage k)
      else some (⟨cfg.max_retries, cfg.max_retries⟩, "Max retries reached") := by
  have htr : trigger cfg passage 0 = .start (some passage) := rfl
  by_cases hk : k < cfg.max_retries
  · rw [if_pos hk]
    have h := run_to_success cfg passage hp k hk h1 h2 k 0 (by omega)
    rw [htr] at h
    exact runReflection_mono cfg (2 * k + 3) _ _ _ _ (by omega) h
  · rw [if_neg hk]
    have h1' : ∀ j, j < cfg.max_retries → cfg.parses (outAt cfg passage j) = false :=
      fun j hj => h1 j (by omega)
    have h := run_to_ceiling cfg passage hp h1' cfg.max_retries 0 (by omega)
    rw [htr] at h
    exact runReflection_mono cfg (2 * cfg.max_retries + 2) _ _ _ _ (by omega) h

theorem c1_retry_loop_witness :
    runReflection demoCfg (2 * 1 + 2 * demoCfg.max_retries + 3) ⟨0, 0⟩
        (.start (some "p")) =
      if 1 < demoCfg.max_retries then some (⟨2, 2⟩, outAt demoCfg "p" 1)
      else some (⟨demoCfg.max_retries, demoCfg.max_retries⟩, "Max retries reached") :=
  c1_retry_loop demoCfg "p" 1 (by decide) (by decide) (by decide)

theorem counter_invariant (cfg : RCfg) :
    ∀ fuel (st : RState) (ev : REv) (st' : RState) (res : String),
      isEmptyStart ev = false → st.retries = st.calls →
      st.retries ≤ cfg.max_retries →
      runReflection cfg fuel st ev = some (st', res) →
      st'.retries = st'.calls ∧ st'.retries ≤ cfg.max_retries := by
  intro fuel
  induction fuel with
  | zero =>
      intro st ev st' res _ _ _ h
      simp [runReflection] at h
  | succ n ih =>
      intro st ev st' res hev hrc hrm hrun
      cases ev with
      | stop s =>
          simp only [runReflection, Option.some.injEq, Prod.mk.injEq] at hrun
          obtain ⟨h1, _⟩ := hrun
          subst h1
          exact ⟨hrc, hrm⟩
      | start p =>
          have hpne : ¬ (p.getD "" = "") := by
            intro hc
            simp [isEmptyStart, hc] at hev
          simp only [runReflection] at hrun
          by_cases hm : cfg.max_retries ≤ st.retries
          · rw [extract_ceiling cfg st (.start p) hm] at hrun
            refine ih st _ st' res ?_ hrc hrm hrun
            rfl
          · simp only [extract, if_neg hm, if_neg hpne] at hrun
            refine ih _ _ st' res ?_ ?_ ?_ hrun
            · rfl
            · simp [hrc]
            · simp
              omega
      | validationError e w pa =>
          simp only [runReflection] at hrun
          by_cases hm : cfg.max_retries ≤ st.retries
          · rw [extract_ceiling cfg st (.validationError e w pa) hm] at hrun
            refine ih st _ st' res ?_ hrc hrm hrun
            rfl
          · simp only [extract, if_neg hm] at hrun
            refine ih _ _ st' res ?_ ?_ ?_ hrun
            · rfl
            · simp [hrc]
            · simp
              omega
      | extractionDone out pa =>
          simp only [runReflection] at hrun
          have hv : isEmptyStart (validate cfg out pa) = false := by
            simp only [validate]
            split <;> rfl
          exact ih st _ st' res hv hrc hrm hrun

/-- Claim C9: `extract` increments the shared-state retries counter on
every invocation in which it proceeds past the ceiling check, including
the very first one triggered by the Start event; once the counter has
reached the ceiling it stops with the sentinel instead; and along any run
started with a nonempty passage the counter equals the number of
completion (extraction) calls performed and never exceeds `max_retries`. -/
theorem c9_retry_counter (cfg : RCfg) :
    (∀ (st : RState) (ev : ExtractIn), st.retries < cfg.max_retries →
        ((extract cfg st ev).1).retries = st.retries + 1) ∧
    (∀ (st : RState) (ev : ExtractIn), cfg.max_retries ≤ st.retries →
        extract cfg st ev = (st, .stop "Max retries reached")) ∧
    (∀ fuel (passage : String) (st' : RState) (res : String),
        passage ≠ "" →
        runReflection cfg fuel ⟨0, 0⟩ (.start (some passage)) = some (st', res) →
        st'.retries = st'.calls ∧ st'.retries ≤ cfg.max_retries) := by
  refine ⟨?_, ?_, ?_⟩
  · intro st ev h
    have hnot : ¬ cfg.max_retries ≤ st.retries := Nat.not_le.mpr h
    cases ev with
    | start p =>
        simp only [extract, if_neg hnot]
        split <;> rfl
    | validationError e w pa =>
        simp [extract, hnot]
  · exact fun st ev h => extract_ceiling cfg st ev h
  · intro fuel passage st' res hp hrun
    exact counter_invariant cfg fuel ⟨0, 0⟩ _ st' res
      (by simp [isEmptyStart, hp]) rfl (by simp) hrun

theorem c9_retry_counter_witness :
    ((extract demoCfg ⟨0, 0⟩ (.start (some "p"))).1).retries = 0 + 1 ∧
    extract demoCfg ⟨3, 7⟩ (.start (some "p")) = (⟨3, 7⟩, .stop "Max retries reached") ∧
    ((⟨2, 2⟩ : RState).retries = (⟨2, 2⟩ : RState).calls ∧
      (⟨2, 2⟩ : RState).retries ≤ demoCfg.max_retries) :=
  ⟨(c9_retry_counter demoCfg).1 ⟨0, 0⟩ (.start (some "p")) (by decide),
   (c9_retry_counter demoCfg).2.1 ⟨3, 7⟩ (.start (some "p")) (by decide),
   (c9_retry_counter demoCfg).2.2 11 "p" ⟨2, 2⟩ (outAt demoCfg "p" 1) (by decide) (by decide)⟩

/-- Claim C10: on a first invocation (`retries = 0`, ceiling at least 1)
whose Start event carries no passage (missing or empty), `extract`
returns the Stop event "Please provide some text in input" while having
already set the retries counter to 1; the run terminates with that
result and the completion-call counter still 0 (the completion function
was never called). -/
theorem c10_empty_passage (cfg : RCfg) (st : RState) (p : Option String) (fuel : Nat)
    (h0 : st.retries = 0) (hm : 1 ≤ cfg.max_retries) (hp : p.getD "" = "") :
    extract cfg st (.start p) =
      ({ st with retries := 1 }, .stop "Please provide some text in input") ∧
    runReflection cfg (fuel + 2) ⟨0, 0⟩ (.start p) =
      some (⟨1, 0⟩, "Please provide some text in input") := by
  have hnot : ¬ cfg.max_retries ≤ st.retries := by omega
  have hnot0 : ¬ cfg.max_retries ≤ (0 : Nat) := by omega
  have hm0 : ¬ cfg.max_retries = 0 := by omega
  constructor
  · simp [extract, hnot, hp, h0, hm0]
  · simp only [runReflection]
    simp [extract, hnot0, hp, runReflection]

theorem c10_empty_passage_witness :
    extract demoCfg ⟨0, 0⟩ (.start none) =
      ({ (⟨0, 0⟩ : RState) with retries := 1 },
        .stop "Please provide some text in input") ∧
    runReflection demoCfg (0 + 2) ⟨0, 0⟩ (.start none) =
      some (⟨1, 0⟩, "Please provide some text in input") :=
  c10_empty_passage demoCfg ⟨0, 0⟩ none 0 rfl (by decide) rfl

/-- Claim C4: consuming an `ExtractionDone` event, the run stops with the
extraction output as result exactly when the output parses against the
schema; otherwise `validate` emits a validation-error event (never a Stop
event) carrying the error text and the prior output, and the run's next
invocation is the generating `extract` step on that very event. -/
theorem c4_validation_routing (cfg : RCfg) (st : RState) (out pa : String) (fuel : Nat) :
    (cfg.parses out = true →
      runReflection cfg (fuel + 2) st (.extractionDone out pa) = some (st, out)) ∧
    (cfg.parses out = false →
      validate cfg out pa = .validationError (cfg.errOf out) out pa ∧
      (∀ res, validate cfg out pa ≠ .stop res) ∧
      runReflection cfg (fuel + 2) st (.extractionDone out pa) =
        runReflection cfg fuel
          (extract cfg st (.validationError (cfg.errOf out) out pa)).1
          (extract cfg st (.validationError (cfg.errOf out) out pa)).2) := by
  constructor
  · intro h
    simp [runReflection, validate, h]
  · intro h
    refine ⟨by simp [validate, h], ?_, ?_⟩
    · intro res hc
      simp [validate, h] at hc
    · simp only [runReflection, validate, h]
      simp

theorem c4_validation_routing_witness :
    runReflection demoCfg (0 + 2) ⟨0, 0⟩ (.extractionDone "good" "p") =
      some (⟨0, 0⟩, "good") ∧
    validate demoCfg "bad" "p" =
      .validationError (demoCfg.errOf "bad") "bad" "p" :=
  ⟨(c4_validation_routing demoCfg ⟨0, 0⟩ "good" "p" 0).1 (by decide),
   ((c4_validation_routing demoCfg ⟨0, 0⟩ "bad" "p" 0).2 (by decide)).1⟩

end Reflection

/-! ## Theorems: the step-event scheduler -/

namespace WF

theorem schedStep_terminal (steps : List WStep) (cancel : Nat → Bool) (s : RunS)
    (o : Outcome) (h : s.result = some o) : schedStep steps cancel s = s := by
  simp [schedStep, h]

theorem sched_terminal (steps : List WStep) (cancel : Nat → Bool) :
    ∀ (n : Nat) (s : RunS) (o : Outcome), s.result = some o →
      sched steps cancel n s = s := by
  intro n
  induction n with
  | zero => intro s o h; simp [sched, h]
  | succ m ih =>
      intro s o h
      rw [sched, schedStep_terminal steps cancel s o h]
      exact ih s o h

theorem sched_total (steps : List WStep) (cancel : Nat → Bool) :
    ∀ (n : Nat) (s : RunS), (sched steps cancel n s).result.isSome := by
  intro n
  induction n with
  | zero =>
      intro s
      rw [sched]
      cases h : s.result <;> simp [h]
  | succ m ih => intro s; rw [sched]; exact ih _

/-- Claim C2: every run produces exactly one terminal outcome (the loop
always ends with the result slot filled, and a terminal state is left
completely untouched by any further scheduling, so no step is invoked and
no event is processed after termination); moreover, when an invocation's
returned events contain a Stop event, that very invocation makes the run
terminal with the Stop's result and nothing runs afterwards. -/
theorem c2_single_termination (steps : List WStep) (cancel : Nat → Bool) :
    (∀ (n : Nat) (s : RunS), (sched steps cancel n s).result.isSome) ∧
    (∀ (n : Nat) (s : RunS) (o : Outcome), s.result = some o →
      sched steps cancel n s = s) ∧
    (∀ (s : RunS) (st : Nat) (e : GEvent) (rest : List (Nat × GEvent)) (stp : WStep)
        (r : GEvent) (n : Nat),
      s.result = none → cancel s.iter = false → s.queue = (st, e) :: rest →
      routeFor steps s.cur e = .ok stp →
      firstStopEv (stp.body s.store e).2 = some r →
      (schedStep steps cancel s).result = some (.stop (stopResult r)) ∧
      (schedStep steps cancel s).trace = s.trace ++ [(stp.name, st, e)] ∧
      sched steps cancel n (schedStep steps cancel s) = schedStep steps cancel s) := by
  refine ⟨sched_total steps cancel, sched_terminal steps cancel, ?_⟩
  intro s st e rest stp r n h0 hc hq hr hstop
  have hs : schedStep steps cancel s = invokeStep s st e rest stp := by
    simp [schedStep, h0, hc, hq, hr]
  have hres : (schedStep steps cancel s).result = some (.stop (stopResult r)) := by
    rw [hs]
    simp [invokeStep, hstop]
  refine ⟨hres, ?_, sched_terminal steps cancel n _ _ hres⟩
  rw [hs]
  simp [invokeStep, hstop]

theorem c2_single_termination_witness :
    ((sched [stopperStep] noCancel 2 demoRun).result.isSome) ∧
    ((schedStep [stopperStep] noCancel demoRun).result =
      some (.stop (stopResult ⟨"stop", [("result", .str "done")]⟩)) ∧
     (schedStep [stopperStep] noCancel demoRun).trace =
      demoRun.trace ++ [("stopper", 0, ⟨"start", []⟩)] ∧
     sched [stopperStep] noCancel 2 (schedStep [stopperStep] noCancel demoRun) =
      schedStep [stopperStep] noCancel demoRun) :=
  ⟨(c2_single_termination [stopperStep] noCancel).1 2 demoRun,
   (c2_single_termination [stopperStep] noCancel).2.2 demoRun 0 ⟨"start", []⟩ []
     stopperStep ⟨"stop", [("result", .str "done")]⟩ 2 rfl rfl rfl rfl rfl⟩

/-- Claim C3: a handoff event naming target `t` is routed to step `t`
(which becomes the next step invoked) when `t` is in the current step's
declared allow-list; otherwise the run terminates with
`IllegalHandoffError`, the trace is not extended (the target is never
invoked), and the terminal state is frozen forever after. -/
theorem c3_handoff_allowlist (steps : List WStep) (cancel : Nat → Bool) (s : RunS)
    (st : Nat) (e : GEvent) (rest : List (Nat × GEvent)) (t : String)
    (h0 : s.result = none) (hc : cancel s.iter = false)
    (hq : s.queue = (st, e) :: rest) (hk : e.kind = "handoff")
    (ht : handoffTarget e = some t) :
    (∀ stp, (allowOf steps s.cur).contains t = true → findStep steps t = some stp →
      stp.name = t ∧
      (schedStep steps cancel s).trace = s.trace ++ [(t, st, e)]) ∧
    ((allowOf steps s.cur).contains t = false →
      (schedStep steps cancel s).result = some (.failed "IllegalHandoffError") ∧
      (schedStep steps cancel s).trace = s.trace ∧
      ∀ n, sched steps cancel n (schedStep steps cancel s) = schedStep steps cancel s) := by
  have hkb : (e.kind == "handoff") = true := by simp [hk]
  constructor
  · intro stp hallow hfind
    have hname : stp.name = t := by
      have hpred := List.find?_some (by simpa [findStep] using hfind)
      exact eq_of_beq (by simpa using hpred)
    have hroute : routeFor steps s.cur e = .ok stp := by
      have hmem : t ∈ allowOf steps s.cur := by simpa using hallow
      unfold routeFor
      rw [hkb, if_pos rfl, ht]
      simp [hmem, hfind]
    have hs : schedStep steps cancel s = invokeStep s st e rest stp := by
      simp [schedStep, h0, hc, hq, hroute]
    refine ⟨hname, ?_⟩
    rw [hs]
    unfold invokeStep
    cases hfs : firstStopEv (stp.body s.store e).2 <;> simp [hfs, hname]
  · intro hallow
    have hroute : routeFor steps s.cur e = .error "IllegalHandoffError" := by
      have hmem : t ∉ allowOf steps s.cur := by simpa using hallow
      unfold routeFor
      rw [hkb, if_pos rfl, ht]
      simp [hmem]
    have hs : schedStep steps cancel s =
        { s with result := some (.failed "IllegalHandoffError") } := by
      simp [schedStep, h0, hc, hq, hroute]
    refine ⟨by rw [hs], by rw [hs], fun n => sched_terminal steps cancel n _ _ (by rw [hs])⟩

theorem c3_handoff_allowlist_witness :
    (agentB.name = "B" ∧
      (schedStep [agentA, agentB] noCancel (handoffRun "B")).trace =
        (handoffRun "B").trace ++ [("B", 5, handoffEvTo "B")]) ∧
    ((schedStep [agentA, agentB] noCancel (handoffRun "C")).result =
        some (.failed "IllegalHandoffError") ∧
      (schedStep [agentA, agentB] noCancel (handoffRun "C")).trace =
        (handoffRun "C").trace ∧
      sched [agentA, agentB] noCancel 3
          (schedStep [agentA, agentB] noCancel (handoffRun "C")) =
        schedStep [agentA, agentB] noCancel (handoffRun "C")) := by
  have h1 := (c3_handoff_allowlist [agentA, agentB] noCancel (handoffRun "B") 5
    (handoffEvTo "B") [] "B" rfl rfl rfl rfl rfl).1 agentB rfl rfl
  have h2 := (c3_handoff_allowlist [agentA, agentB] noCancel (handoffRun "C") 5
    (handoffEvTo "C") [] "C" rfl rfl rfl rfl rfl).2 rfl
  exact ⟨h1, h2.1, h2.2.1, h2.2.2 3⟩

theorem stampFrom_stamps_mem :
    ∀ (l : List GEvent) (n a : Nat), a ∈ (stampFrom n l).map Prod.fst →
      n ≤ a ∧ a < n + l.length := by
  intro l
  induction l with
  | nil => intro n a h; simp [stampFrom] at h
  | cons e es ih =>
      intro n a h
      simp only [stampFrom, List.map_cons, List.mem_cons] at h
      rcases h with rfl | h
      · refine ⟨le_refl _, ?_⟩
        simp only [List.length_cons]
        omega
      · obtain ⟨h1, h2⟩ := ih (n + 1) a h
        refine ⟨by omega, ?_⟩
        simp only [List.length_cons]
        omega

theorem stampFrom_pairwise :
    ∀ (l : List GEvent) (n : Nat),
      List.Pairwise (· < ·) ((stampFrom n l).map Prod.fst) := by
  intro l
  induction l with
  | nil => intro n; simp [stampFrom]
  | cons e es ih =>
      intro n
      simp only [stampFrom, List.map_cons, List.pairwise_cons]
      refine ⟨?_, ih (n + 1)⟩
      intro b hb
      have := stampFrom_stamps_mem es (n + 1) b hb
      omega

theorem invokeStep_queue (s : RunS) (st : Nat) (e : GEvent)
    (rest : List (Nat × GEvent)) (stp : WStep) :
    (invokeStep s st e rest stp).queue =
      rest ++ stampFrom s.nextStamp (stp.body s.store e).2 := by
  simp only [invokeStep]
  cases hfs : firstStopEv (stp.body s.store e).2 <;> simp [hfs]

theorem invokeStep_nextStamp (s : RunS) (st : Nat) (e : GEvent)
    (rest : List (Nat × GEvent)) (stp : WStep) :
    (invokeStep s st e rest stp).nextStamp =
      s.nextStamp + (stp.body s.store e).2.length := by
  simp only [invokeStep]
  cases hfs : firstStopEv (stp.body s.store e).2 <;> simp [hfs]

theorem invokeStep_trace (s : RunS) (st : Nat) (e : GEvent)
    (rest : List (Nat × GEvent)) (stp : WStep) :
    (invokeStep s st e rest stp).trace = s.trace ++ [(stp.name, st, e)] := by
  simp only [invokeStep]
  cases hfs : firstStopEv (stp.body s.store e).2 <;> simp [hfs]

theorem stampInv_result (s : RunS) (x : Option Outcome) :
    StampInv { s with result := x } ↔ StampInv s := Iff.rfl

theorem invokeStep_inv (s : RunS) (st : Nat) (e : GEvent)
    (rest : List (Nat × GEvent)) (stp : WStep) (h : StampInv s)
    (hq : s.queue = (st, e) :: rest) :
    StampInv (invokeStep s st e rest stp) := by
  obtain ⟨h1, h2, h3, h4, h5⟩ := h
  have hqs : qstamps s = st :: rest.map Prod.fst := by
    simp [qstamps, hq]
  rw [hqs] at h1 h2 h4
  rw [List.pairwise_cons] at h1
  obtain ⟨hstR, hR⟩ := h1
  have hstN : st < s.nextStamp := h2 st (List.mem_cons_self st _)
  have hRN : ∀ a ∈ rest.map Prod.fst, a < s.nextStamp :=
    fun a ha => h2 a (List.mem_cons_of_mem _ ha)
  have hTst : ∀ a ∈ tstamps s, a < st :=
    fun a ha => h4 a ha st (List.mem_cons_self st _)
  have hTR : ∀ a ∈ tstamps s, ∀ b ∈ rest.map Prod.fst, a < b :=
    fun a ha b hb => h4 a ha b (List.mem_cons_of_mem _ hb)
  have hnew := stampFrom_stamps_mem (stp.body s.store e).2 s.nextStamp
  unfold StampInv qstamps tstamps
  rw [invokeStep_queue, invokeStep_nextStamp, invokeStep_trace]
  simp only [List.map_append, List.map_cons, List.map_nil]
  refine ⟨?_, ?_, ?_, ?_, ?_⟩
  · rw [List.pairwise_append]
    refine ⟨hR, stampFrom_pairwise _ _, ?_⟩
    intro a ha b hb
    have hb2 := hnew b hb
    have ha2 := hRN a ha
    omega
  · intro a ha
    rcases List.mem_append.mp ha with ha | ha
    · have := hRN a ha
      omega
    · have := hnew a ha
      omega
  · rw [List.pairwise_append]
    refine ⟨h3, List.pairwise_singleton _ _, ?_⟩
    intro a ha b hb
    rw [List.mem_singleton] at hb
    subst hb
    exact hTst a ha
  · intro a ha b hb
    rcases List.mem_append.mp ha with ha | ha
    · rcases List.mem_append.mp hb with hb | hb
      · exact hTR a ha b hb
      · have := hnew b hb
        have := h5 a ha
        omega
    · rw [List.mem_singleton] at ha
      subst ha
      rcases List.mem_append.mp hb with hb | hb
      · exact hstR b hb
      · have := hnew b hb
        omega
  · intro a ha
    rcases List.mem_append.mp ha with ha | ha
    · have := h5 a ha
      omega
    · rw [List.mem_singleton] at ha
      subst ha
      omega

theorem schedStep_inv (steps : List WStep) (cancel : Nat → Bool) (s : RunS)
    (h : StampInv s) : StampInv (schedStep steps cancel s) := by
  cases hres : s.result with
  | some o =>
      rw [schedStep_terminal steps cancel s o hres]
      exact h
  | none =>
      cases hcan : cancel s.iter with
      | true =>
          have hs : schedStep steps cancel s = { s with result := some .cancelled } := by
            simp [schedStep, hres, hcan]
          rw [hs]
          exact (stampInv_result s _).mpr h
      | false =>
          cases hq : s.queue with
          | nil =>
              have hs : schedStep steps cancel s = { s with result := some .timeout } := by
                simp [schedStep, hres, hcan, hq]
              rw [hs]
              exact (stampInv_result s _).mpr h
          | cons hd rest =>
              obtain ⟨st, e⟩ := hd
              cases hr : routeFor steps s.cur e with
              | error err =>
                  have hs : schedStep steps cancel s =
                      { s with result := some (.failed err) } := by
                    simp [schedStep, hres, hcan, hq, hr]
                  rw [hs]
                  exact (stampInv_result s _).mpr h
              | ok stp =>
                  have hs : schedStep steps cancel s = invokeStep s st e rest stp := by
                    simp [schedStep, hres, hcan, hq, hr]
                  rw [hs]
                  exact invokeStep_inv s st e rest stp h hq

theorem sched_inv (steps : List WStep) (cancel : Nat → Bool) :
    ∀ (n : Nat) (s : RunS), StampInv s → StampInv (sched steps cancel n s) := by
  intro n
  induction n with
  | zero =>
      intro s h
      cases hres : s.result with
      | some o =>
          have hs : sched steps cancel 0 s = s := by simp [sched, hres]
          rw [hs]
          exact h
      | none =>
          have hs : sched steps cancel 0 s = { s with result := some .timeout } := by
            simp [sched, hres]
          rw [hs]
          exact (stampInv_result s _).mpr h
  | succ m ih =>
      intro s h
      rw [sched]
      exact ih _ (schedStep_inv steps cancel s h)

/-- Claim C7: an invocation appends the step's emitted events at the tail
of the queue, in the order returned and with consecutive fresh arrival
stamps; the FIFO invariant is preserved by the whole loop, so in every
run from a well-stamped state the consumed events' arrival stamps are
strictly increasing — events are processed in strict FIFO arrival
order. -/
theorem c7_fifo_order (steps : List WStep) (cancel : Nat → Bool) :
    (∀ (s : RunS) (st : Nat) (e : GEvent) (rest : List (Nat × GEvent)) (stp : WStep),
      s.result = none → cancel s.iter = false → s.queue = (st, e) :: rest →
      routeFor steps s.cur e = .ok stp →
      (schedStep steps cancel s).queue =
        rest ++ stampFrom s.nextStamp (stp.body s.store e).2) ∧
    (∀ (n : Nat) (s : RunS), StampInv s →
      StampInv (sched steps cancel n s) ∧
      List.Pairwise (· < ·) (tstamps (sched steps cancel n s))) := by
  constructor
  · intro s st e rest stp h0 hc hq hr
    have hs : schedStep steps cancel s = invokeStep s st e rest stp := by
      simp [schedStep, h0, hc, hq, hr]
    rw [hs, invokeStep_queue]
  · intro n s h
    have hinv := sched_inv steps cancel n s h
    exact ⟨hinv, hinv.2.2.1⟩

theorem c7_fifo_order_witness :
    ((schedStep [stopperStep] noCancel demoRun).queue =
      [] ++ stampFrom demoRun.nextStamp
        (stopperStep.body demoRun.store ⟨"start", []⟩).2) ∧
    (StampInv (sched [stopperStep] noCancel 2 demoRun) ∧
      List.Pairwise (· < ·) (tstamps (sched [stopperStep] noCancel 2 demoRun))) :=
  ⟨(c7_fifo_order [stopperStep] noCancel).1 demoRun 0 ⟨"start", []⟩ [] stopperStep
      rfl rfl rfl rfl,
   (c7_fifo_order [stopperStep] noCancel).2 2 demoRun
      (by
        refine ⟨?_, ?_, ?_, ?_, ?_⟩ <;>
          simp [StampInv, qstamps, tstamps, demoRun])⟩

/-- Claim C6: a scoped edit of key "state" that reads the stored mapping
and adds an entry commits on every exit path (the exception raised inside
the scope, if any, is re-thrown but the edited value is committed all the
same), the updated mapping is read back under the same key with the new
entry present, and the update is visible to the next step invocation:
in the two-step system the reader step, invoked next, stops the run with
exactly the edited mapping as result. -/
theorem c6_scoped_edit (s0 : List (String × Val)) (m : List (String × Val))
    (notes_title notes : String) (exn : Option String)
    (hm : wget s0 "state" (.vmap []) = .vmap m) :
    (scoped_edit s0 "state" (fun v => (record_notes_edit notes_title notes v, exn))).2
        = exn ∧
    wget (scoped_edit s0 "state"
        (fun v => (record_notes_edit notes_title notes v, exn))).1 "state" (.vmap [])
      = record_notes_edit notes_title notes (.vmap m) ∧
    notesUnder (record_notes_edit notes_title notes (.vmap m)) notes_title
      = some (.str notes) ∧
    (sched [noteStep notes_title notes, readStateStep] noCancel 3 (editRun s0)).result
      = some (.stop (record_notes_edit notes_title notes (.vmap m))) := by
  have hm2 : (aget s0 "state").getD (Val.vmap []) = Val.vmap m := hm
  refine ⟨rfl, ?_, ?_, ?_⟩
  · simp [scoped_edit, wget, hm2, aget_aset_self]
  · simp [record_notes_edit, notesUnder, aget_aset_self]
  · simp [sched, schedStep, editRun, noteStep, readStateStep, routeFor, acceptors,
      invokeStep, scoped_edit, wget, firstStopEv, stopResult, stampFrom, noCancel,
      handoffTarget, hm2, aget_aset_self, aget]

theorem c6_scoped_edit_witness :
    (scoped_edit [("state", .vmap [])] "state"
        (fun v => (record_notes_edit "t" "n" v, some "boom"))).2 = some "boom" ∧
    wget (scoped_edit [("state", .vmap [])] "state"
        (fun v => (record_notes_edit "t" "n" v, some "boom"))).1 "state" (.vmap [])
      = record_notes_edit "t" "n" (.vmap []) ∧
    notesUnder (record_notes_edit "t" "n" (.vmap [])) "t" = some (.str "n") ∧
    (sched [noteStep "t" "n", readStateStep] noCancel 3
        (editRun [("state", .vmap [])])).result
      = some (.stop (record_notes_edit "t" "n" (.vmap []))) :=
  c6_scoped_edit [("state", .vmap [])] [] "t" "n" (some "boom") rfl

end WF

/-! ## Theorems: the story workflow -/

namespace Story

/-- Counterexample to claim C5: `create_segment` emits a `NewBlockEvent`
whose payload block has `choice = none`, and after the consuming
`prompt_human` body has run the very same payload reference dereferences
to a block with `choice = some "left"` — the consumed event's payload
field is not the same after the step's body as when the event was
emitted. -/
theorem c5_event_mutation_counterexample :
    (create_segment 3 demoLlm demoLlm demoIdGen demoWorld0).2 = .newBlock "b0" ∧
    (eventBlockView demoWorld1 "b0").choice = none ∧
    (eventBlockView demoWorld2 "b0").choice = some "left" ∧
    eventBlockView demoWorld2 "b0" ≠ eventBlockView demoWorld1 "b0" := by
  refine ⟨rfl, rfl, rfl, ?_⟩
  decide

/-- Claim C5 as amended: the consumed event itself (kind and payload
reference) is left intact — `prompt_human` re-emits the same block
identity — but the step body mutates the referenced `Block` object in
place, replacing exactly its `choice` field with the human input; every
other heap object is untouched. -/
theorem c5_payload_reference_mutation (humanIn : String → String) (w : RefWorld)
    (bid : String) (b : Block) (hb : aget w.blockHeap bid = some b) :
    (prompt_human humanIn w bid).2 = .humanChoice bid ∧
    aget (prompt_human humanIn w bid).1.blockHeap bid =
      some { b with choice := some (humanIn (humanPromptFor b)) } ∧
    (∀ bid2, bid2 ≠ bid →
      aget (prompt_human humanIn w bid).1.blockHeap bid2 = aget w.blockHeap bid2) := by
  refine ⟨rfl, ?_, ?_⟩
  · simp [prompt_human, hb, aget_aset_self]
  · intro bid2 hne
    simp [prompt_human, aget_aset_ne _ _ _ _ hne]

theorem c5_payload_reference_mutation_witness :
    (prompt_human demoHuman demoWorld1 "b0").2 = .humanChoice "b0" ∧
    aget (prompt_human demoHuman demoWorld1 "b0").1.blockHeap "b0" =
      some { eventBlockView demoWorld1 "b0" with
              choice := some (demoHuman (humanPromptFor (eventBlockView demoWorld1 "b0"))) } ∧
    aget (prompt_human demoHuman demoWorld1 "b0").1.blockHeap "zz" =
      aget demoWorld1.blockHeap "zz" := by
  have h := c5_payload_reference_mutation demoHuman demoWorld1 "b0"
    (eventBlockView demoWorld1 "b0") (by decide)
  exact ⟨h.1, h.2.1, h.2.2 "zz" (by decide)⟩

/-- Claim C8: `prompt_human` writes the list reference under the key
"block" while `create_segment` reads the key "blocks"; the store entry
under "blocks" is untouched by the step, so under value semantics of the
store (`prompt_humanVal`) no set propagates the choice to "blocks" — yet
under reference semantics the next `create_segment` read observes the
choice, solely because the step mutated the `Block` object reachable from
the list object already stored under "blocks". -/
theorem c8_key_mismatch (humanIn : String → String) (w : RefWorld)
    (lid bid : String) (ids : List String) (b : Block)
    (hs : aget w.store "blocks" = some lid)
    (hl : aget w.listHeap lid = some ids)
    (hne : ids ≠ [])
    (hb : aget w.blockHeap bid = some b) :
    aget (prompt_human humanIn w bid).1.store "blocks" = aget w.store "blocks" ∧
    aget (prompt_human humanIn w bid).1.store "block" = some lid ∧
    aget (prompt_human humanIn w bid).1.blockHeap bid =
      some { b with choice := some (humanIn (humanPromptFor b)) } ∧
    (observedBlocks (prompt_human humanIn w bid).1)[ids.length - 1]? =
      some { b with choice := some (humanIn (humanPromptFor b)) } ∧
    (∀ (vs : List (String × List Block)) (evb : Block),
      aget (prompt_humanVal humanIn evb vs).1 "blocks" = aget vs "blocks") := by
  have hkeys : ("blocks" : String) ≠ "block" := by decide
  have hlen : 0 < ids.length := List.length_pos.mpr hne
  have hset : (ids.set (ids.length - 1) bid)[ids.length - 1]? = some bid :=
    List.getElem?_set_eq_of_lt bid (by omega)
  refine ⟨?_, ?_, ?_, ?_, ?_⟩
  · simp only [prompt_human]
    exact aget_aset_ne _ _ _ _ hkeys
  · simp only [prompt_human, hs, Option.getD_some]
    exact aget_aset_self _ _ _
  · simp [prompt_human, hb, aget_aset_self]
  · simp only [prompt_human, observedBlocks, hs, Option.getD_some, hl, hb]
    rw [aget_aset_ne _ _ _ _ hkeys, hs]
    simp only [aget_aset_self, Option.getD_some, List.getElem?_map, hset,
      Option.map_some, aget_aset_self]
    simp [aget_aset_self]
  · intro vs evb
    simp only [prompt_humanVal]
    exact aget_aset_ne _ _ _ _ hkeys

theorem c8_key_mismatch_witness :
    aget demoWorld2.store "blocks" = aget demoWorld1.store "blocks" ∧
    aget demoWorld2.store "block" = some "list0" ∧
    aget demoWorld2.blockHeap "b0" =
      some { eventBlockView demoWorld1 "b0" with
              choice := some (demoHuman (humanPromptFor (eventBlockView demoWorld1 "b0"))) } ∧
    (observedBlocks demoWorld2)[(["b0"] : List String).length - 1]? =
      some { eventBlockView demoWorld1 "b0" with
              choice := some (demoHuman (humanPromptFor (eventBlockView demoWorld1 "b0"))) } ∧
    aget (prompt_humanVal demoHuman (eventBlockView demoWorld1 "b0")
        [("blocks", [eventBlockView demoWorld1 "b0"])]).1 "blocks" =
      aget [("blocks", [eventBlockView demoWorld1 "b0"])] "blocks" := by
  have h := c8_key_mismatch demoHuman demoWorld1 "list0" "b0" ["b0"]
    (eventBlockView demoWorld1 "b0") (by decide) (by decide) (by decide) (by decide)
  exact ⟨h.1, h.2.1, h.2.2.1, h.2.2.2.1,
    h.2.2.2.2 [("blocks", [eventBlockView demoWorld1 "b0"])] (eventBlockView demoWorld1 "b0")⟩

end Story
